import Mathlib

/-!
Verification of the Foodapi repository's nutrition-extraction and caching logic.

The development shallowly embeds the TypeScript sources:
* `NutritionExtractor` (src/middleware/validation.ts, second half) — extraction of a
  normalized nutrition summary from a raw USDA food record;
* `CacheService` (in-memory TTL cache) — get/set/delete/clear/cleanup/evictOldest;
* the post-parse response validation of `USDAService.searchFoodsRaw`.

Modelling conventions:
* JS strings are `List Char` (`Str`); `substring`, `trim`, the regex character classes
  `\s`, `\d`, `\w` are modelled over ASCII.
* JS numbers are idealized as `Rat` (no floating-point rounding, no NaN literal);
  a nutrient `value` that would parse to NaN is the explicit `NutrientValue.nonNumeric`.
* JS truthiness is modelled field-by-field: a possibly-absent string field is
  `Option Str` and is truthy iff it is `some s` with `s ≠ []`; a possibly-absent
  number is truthy iff `some a` with `a ≠ 0`.
* A value of dynamic type on which the code would throw (a non-array `foodNutrients`
  reaching `.find`) is the explicit constructor `NutrientsField.malformed`, and the
  functions that touch it return `Except Unit _`, the `.error` case being the thrown
  `TypeError` that the source catches.
-/

/- Batteries marks the rational operations irreducible; restore reducibility inside
this file so that concrete witnesses and counterexamples evaluate with `decide`. -/
attribute [local semireducible] Rat.add Rat.mul Rat.sub Rat.inv Rat.ofScientific

/-- JS strings, modelled as lists of characters. -/
abbrev Str := List Char

/-- ASCII model of the JS whitespace class `\s` (also used by `String.prototype.trim`). -/
def isWS (c : Char) : Bool :=
  c = ' ' || c = '\t' || c = '\n' || c = '\r' || c = '\x0b' || c = '\x0c'

/-- JS `\w` character class: ASCII letters, digits and underscore. -/
def isWordChar (c : Char) : Bool :=
  c.isAlphanum || c = '_'

/-- Characters kept by `cleanDescription`'s strip step `replace(/[^\w\s\-.,&()]/g, '')`. -/
def allowedChar (c : Char) : Bool :=
  isWordChar c || isWS c || c = '-' || c = '.' || c = ',' || c = '&' || c = '(' || c = ')'

/-- JS `String.prototype.trim`: drop leading and trailing whitespace. -/
def trimWS (s : Str) : Str :=
  ((s.dropWhile isWS).reverse.dropWhile isWS).reverse

/-- Drop trailing whitespace only (helper for reasoning about `trimWS`). -/
def trimTrail (s : Str) : Str :=
  (s.reverse.dropWhile isWS).reverse

/-- JS `replace(/\s+/g, ' ')`: every maximal whitespace run becomes a single space. -/
def collapseWS : Str → Str
  | [] => []
  | [c] => if isWS c then [' '] else [c]
  | c :: d :: rest =>
    if isWS c && isWS d then collapseWS (d :: rest)
    else (if isWS c then ' ' else c) :: collapseWS (d :: rest)

/-- Lowercase a string character-wise (JS `toLowerCase`, ASCII fragment). -/
def toLowerStr (s : Str) : Str := s.map Char.toLower

/-- A possibly-absent JS string coerced through truthiness: `some s` survives iff nonempty. -/
def truthyStr : Option Str → Option Str
  | some s => if s = [] then none else some s
  | none => none

/-- Value of a decimal digit character. -/
def digitVal (c : Char) : Nat := c.toNat - '0'.toNat

/-- Numeric value of a string of decimal digits. -/
def digitsToNat (ds : Str) : Nat :=
  ds.foldl (fun n c => 10 * n + digitVal c) 0

/-- Value of `parseFloat` applied to `<intPart>.<fracPart>` (fracPart possibly
empty): the exact rational `intPart.fracPart`. -/
def ratOfParts (intPart fracPart : Str) : Rat :=
  mkRat (digitsToNat intPart * 10 ^ fracPart.length + digitsToNat fracPart)
    (10 ^ fracPart.length)

/-- JS `Math.round`: nearest integer, halves toward positive infinity. -/
def jsRound (x : Rat) : Int := (x + mkRat 1 2).floor

/-- The source's rounding idiom `Math.round(x * 100) / 100`. -/
def round2 (x : Rat) : Rat := mkRat (jsRound (x * 100)) 100

/-- Decidable equality for `Except` results. -/
instance {ε α : Type} [DecidableEq ε] [DecidableEq α] : DecidableEq (Except ε α) :=
  fun a b =>
    match a, b with
    | .error e, .error f =>
      match decEq e f with
      | isTrue h => isTrue (by rw [h])
      | isFalse h => isFalse (fun c => h (Except.error.inj c))
    | .ok x, .ok y =>
      match decEq x y with
      | isTrue h => isTrue (by rw [h])
      | isFalse h => isFalse (fun c => h (Except.ok.inj c))
    | .error _, .ok _ => isFalse (fun c => Except.noConfusion c)
    | .ok _, .error _ => isFalse (fun c => Except.noConfusion c)

namespace NutritionExtractor

/-- The literal placeholder description. -/
def unknownFood : Str := String.toList "Unknown Food"

/- USDA nutrient id table (`NUTRIENT_IDS` in the source). -/
namespace NUTRIENT_IDS

def CALORIES : Int := 1008

def PROTEIN : Int := 1003

def CARBOHYDRATES : Int := 1005

def FAT : Int := 1004

def FIBER : Int := 1079

def SUGAR : Int := 2000

end NUTRIENT_IDS

/-- A `measureUnit` object of a food portion: both name fields may be absent. -/
structure MeasureUnit where
  abbreviation : Option Str
  name : Option Str
deriving DecidableEq

/-- One entry of `foodPortions`. -/
structure FoodPortion where
  amount : Option Rat
  measureUnit : Option MeasureUnit
deriving DecidableEq

/-- The `value` field of a nutrient entry: absent (`undefined`/`null`), a numeric
value (a number, or a string that `parseFloat` parses), or a value that parses to NaN. -/
inductive NutrientValue where
  | missing : NutrientValue
  | num (v : Rat) : NutrientValue
  | nonNumeric : NutrientValue
deriving DecidableEq

/-- One entry of `foodNutrients`. -/
structure FoodNutrient where
  nutrientId : Int
  value : NutrientValue
deriving DecidableEq

/-- The `foodNutrients` field: absent (or another falsy value), an actual array, or a
truthy non-array value on which `.find` would throw a `TypeError`. -/
inductive NutrientsField where
  | absent : NutrientsField
  | list (l : List FoodNutrient) : NutrientsField
  | malformed : NutrientsField
deriving DecidableEq

/-- A raw USDA food record (`USDAFood`), restricted to the fields the extractor reads. -/
structure USDAFood where
  fdcId : Int
  description : Option Str
  brandOwner : Option Str
  foodPortions : Option (List FoodPortion)
  foodNutrients : NutrientsField
  dataType : Option Str
  publishedDate : Option Str
deriving DecidableEq

/-- A serving size, `{ amount, unit }`. -/
structure ServingSize where
  amount : Rat
  unit : Str
deriving DecidableEq

/-- The macronutrient set returned by `extractMacronutrients`; `fiber`/`sugar` are
`none` exactly when the source sets them to `undefined`. -/
structure Macronutrients where
  protein : Rat
  carbohydrates : Rat
  fat : Rat
  fiber : Option Rat
  sugar : Option Rat
deriving DecidableEq

/-- The normalized summary (`ExtractedNutritionData`). -/
structure ExtractedNutritionData where
  fdcId : Int
  description : Str
  brandName : Option Str
  servingSize : ServingSize
  calories : Rat
  macronutrients : Macronutrients
  dataType : Option Str
  publishedDate : Option Str
deriving DecidableEq

/-- Source `cleanDescription`: falsy input maps to the placeholder; otherwise trim,
collapse whitespace, strip characters outside `\w`, `\s` and `-.,&()`, take 200. -/
def cleanDescription : Option Str → Str
  | none => unknownFood
  | some [] => unknownFood
  | some s => (((collapseWS (trimWS s)).filter allowedChar).take 200)

/-- Source `extractBrandName`: a truthy `brandOwner` wins (trimmed); otherwise the
regex `/^([^,]+),/` on the description, accepted only when the captured leading
segment is under 50 characters; otherwise absent. -/
def extractBrandName (food : USDAFood) : Option Str :=
  match truthyStr food.brandOwner with
  | some b => some (trimWS b)
  | none =>
    let d := (food.description).getD []
    let pre := d.takeWhile (fun c => c ≠ ',')
    if pre ≠ [] ∧ pre.length < d.length ∧ pre.length < 50 then some (trimWS pre) else none

/-- The serving-size regex's unit alternatives, in the source's alternation order. -/
def unitAlternatives : List Str :=
  [String.toList "g", String.toList "gram", String.toList "grams",
   String.toList "oz", String.toList "ounce", String.toList "ounces",
   String.toList "ml", String.toList "milliliter", String.toList "milliliters",
   String.toList "cup", String.toList "cups",
   String.toList "tbsp", String.toList "tablespoon", String.toList "tablespoons",
   String.toList "tsp", String.toList "teaspoon", String.toList "teaspoons"]

/-- Match the unit alternation at the head of `s`, case-insensitively, trying the
alternatives in the regex's left-to-right order; returns the matched slice of `s`. -/
def findUnitAt (s : Str) : Option Str :=
  match unitAlternatives.find? (fun u => toLowerStr (s.take u.length) == u) with
  | some u => some (s.take u.length)
  | none => none

/-- After the numeric part, skip `\s*` and require a unit alternative. -/
def completeServing (value : Rat) (rest : Str) : Option (Rat × Str) :=
  match findUnitAt (rest.dropWhile isWS) with
  | some u => some (value, u)
  | none => none

/-- Attempt the serving regex `(\d+(?:\.\d+)?)\s*(<units>)` anchored at the head of
`s`, with the regex's backtracking order: maximal digit run, then the fractional
part greedily if present, falling back to dropping the optional group. -/
def matchServingAt (s : Str) : Option (Rat × Str) :=
  let ds := s.takeWhile Char.isDigit
  if ds = [] then none
  else
    let rest := s.drop ds.length
    match rest with
    | '.' :: r2 =>
      let fs := r2.takeWhile Char.isDigit
      if fs = [] then completeServing (ratOfParts ds []) rest
      else
        match completeServing (ratOfParts ds fs) (r2.drop fs.length) with
        | some x => some x
        | none => completeServing (ratOfParts ds []) rest
    | _ => completeServing (ratOfParts ds []) rest

/-- Leftmost match of the serving regex over the whole description. -/
def firstServingMatch : Str → Option (Rat × Str)
  | [] => none
  | c :: rest =>
    match matchServingAt (c :: rest) with
    | some x => some x
    | none => firstServingMatch rest

/-- The source's `unitMap`, as association pairs (lower-case key, normalized form). -/
def unitMap : List (Str × Str) :=
  [(String.toList "g", String.toList "g"),
   (String.toList "gram", String.toList "g"),
   (String.toList "grams", String.toList "g"),
   (String.toList "oz", String.toList "oz"),
   (String.toList "ounce", String.toList "oz"),
   (String.toList "ounces", String.toList "oz"),
   (String.toList "ml", String.toList "ml"),
   (String.toList "milliliter", String.toList "ml"),
   (String.toList "milliliters", String.toList "ml"),
   (String.toList "cup", String.toList "cup"),
   (String.toList "cups", String.toList "cup"),
   (String.toList "tbsp", String.toList "tbsp"),
   (String.toList "tablespoon", String.toList "tbsp"),
   (String.toList "tablespoons", String.toList "tbsp"),
   (String.toList "tsp", String.toList "tsp"),
   (String.toList "teaspoon", String.toList "tsp"),
   (String.toList "teaspoons", String.toList "tsp")]

/-- Source `normalizeUnit`: `unitMap[unit.toLowerCase()] || unit`. -/
def normalizeUnit (u : Str) : Str :=
  match unitMap.find? (fun p => p.1 == toLowerStr u) with
  | some p => p.2
  | none => u

/-- Source `extractServingSize`: start from the default `100 g`; a truthy first
portion (truthy `amount` and present `measureUnit`) overwrites it; then a regex
match over the raw description overwrites that in turn. -/
def extractServingSize (food : USDAFood) : ServingSize :=
  let dflt : ServingSize := ⟨100, String.toList "g"⟩
  let fromPortion : ServingSize :=
    match food.foodPortions with
    | some (p :: _) =>
      match p.amount, p.measureUnit with
      | some a, some mu =>
        if a ≠ 0 then
          ⟨a, (truthyStr mu.abbreviation).getD ((truthyStr mu.name).getD (String.toList "g"))⟩
        else dflt
      | _, _ => dflt
    | _ => dflt
  match firstServingMatch ((food.description).getD []) with
  | some (a, u) => ⟨a, normalizeUnit u⟩
  | none => fromPortion

/-- Source `extractNutrientValue`: absent or empty nutrient list yields 0; a truthy
non-array throws (the `.error` case); otherwise find the id, with absent or
NaN-parsing or negative values resolved to 0. -/
def extractNutrientValue (food : USDAFood) (nutrientId : Int) : Except Unit Rat :=
  match food.foodNutrients with
  | .absent => .ok 0
  | .malformed => .error ()
  | .list [] => .ok 0
  | .list (n0 :: rest) =>
    match (n0 :: rest).find? (fun n => n.nutrientId == nutrientId) with
    | none => .ok 0
    | some n =>
      match n.value with
      | .missing => .ok 0
      | .nonNumeric => .ok 0
      | .num v => .ok (if v < 0 then 0 else v)

/-- Source `extractMacronutrients`: the five nutrient lookups run in sequence, any
thrown lookup aborting the whole call; on success protein, carbohydrates and fat are
rounded to two decimals, while fiber and sugar are present iff the UNROUNDED value
is strictly positive (`fiber > 0 ? round(...) : undefined`). -/
def extractMacronutrients (food : USDAFood) : Except Unit Macronutrients :=
  match extractNutrientValue food NUTRIENT_IDS.PROTEIN,
        extractNutrientValue food NUTRIENT_IDS.CARBOHYDRATES,
        extractNutrientValue food NUTRIENT_IDS.FAT,
        extractNutrientValue food NUTRIENT_IDS.FIBER,
        extractNutrientValue food NUTRIENT_IDS.SUGAR with
  | .ok protein, .ok carbohydrates, .ok fat, .ok fiber, .ok sugar =>
    .ok { protein := round2 protein
          carbohydrates := round2 carbohydrates
          fat := round2 fat
          fiber := if fiber > 0 then some (round2 fiber) else none
          sugar := if sugar > 0 then some (round2 sugar) else none }
  | _, _, _, _, _ => .error ()

/-- Source `extractSingleFoodNutrition`: assembles the summary; any thrown error
(a malformed nutrient list) is caught and the record yields `none`. -/
def extractSingleFoodNutrition (food : USDAFood) : Option ExtractedNutritionData :=
  match extractMacronutrients food, extractNutrientValue food NUTRIENT_IDS.CALORIES with
  | .ok m, .ok c =>
    some { fdcId := food.fdcId
           description := cleanDescription food.description
           brandName := extractBrandName food
           servingSize := extractServingSize food
           calories := c
           macronutrients := m
           dataType := food.dataType
           publishedDate := food.publishedDate }
  | _, _ => none

/-- A raw search response as consumed by `extractNutritionData`. -/
structure USDASearchResponse where
  foods : Option (List USDAFood)
  totalHits : Option Nat
  currentPage : Option Nat
  totalPages : Option Nat
deriving DecidableEq

/-- The search result shape returned by `extractNutritionData`. -/
structure NutritionSearchResult where
  foods : List ExtractedNutritionData
  totalHits : Nat
  currentPage : Nat
  totalPages : Nat
  searchQuery : Str
deriving DecidableEq

/-- JS `x || d` on an optional number field. -/
def orDefaultNat (o : Option Nat) (d : Nat) : Nat :=
  match o with
  | some n => if n = 0 then d else n
  | none => d

/-- Source `extractNutritionData` (the spec's `extractMany`): an absent or empty
foods array short-circuits; otherwise each record is extracted, per-record failures
becoming `none` and being filtered out. -/
def extractNutritionData (resp : USDASearchResponse) (searchQuery : Str) :
    NutritionSearchResult :=
  match resp.foods with
  | none =>
    { foods := [], totalHits := orDefaultNat resp.totalHits 0
      currentPage := orDefaultNat resp.currentPage 1
      totalPages := orDefaultNat resp.totalPages 0, searchQuery := searchQuery }
  | some [] =>
    { foods := [], totalHits := orDefaultNat resp.totalHits 0
      currentPage := orDefaultNat resp.currentPage 1
      totalPages := orDefaultNat resp.totalPages 0, searchQuery := searchQuery }
  | some (f :: fs) =>
    { foods := ((f :: fs).map extractSingleFoodNutrition).filterMap id
      totalHits := orDefaultNat resp.totalHits 0
      currentPage := orDefaultNat resp.currentPage 1
      totalPages := orDefaultNat resp.totalPages 0, searchQuery := searchQuery }

end NutritionExtractor

namespace NutritionExtractor

/-- A record carrying both a usable first portion entry (50 oz) and a description
whose text matches the serving regex (5 g). -/
def portionAndRegexFood : USDAFood :=
  { fdcId := 1, description := some (String.toList "x 5 g"), brandOwner := none
    foodPortions := some [⟨some 50, some ⟨some (String.toList "oz"), none⟩⟩]
    foodNutrients := .absent, dataType := none, publishedDate := none }

/-- A record whose first portion entry carries a negative amount and whose
description matches no serving regex. -/
def negativePortionFood : USDAFood :=
  { fdcId := 1, description := some (String.toList "pear"), brandOwner := none
    foodPortions := some [⟨some (-5), some ⟨some (String.toList "oz"), none⟩⟩]
    foodNutrients := .list [], dataType := none, publishedDate := none }

/-- A record whose only nutrient is fiber with the tiny positive value 0.001, which
rounds to 0 at two decimals. -/
def tinyFiberFood : USDAFood :=
  { fdcId := 2, description := some (String.toList "f"), brandOwner := none
    foodPortions := none, foodNutrients := .list [⟨NUTRIENT_IDS.FIBER, .num (1 / 1000)⟩]
    dataType := none, publishedDate := none }

/-- The summary the extractor produces for `tinyFiberFood`. -/
def tinyFiberData : ExtractedNutritionData :=
  { fdcId := 2, description := String.toList "f", brandName := none
    servingSize := ⟨100, String.toList "g"⟩, calories := 0
    macronutrients := ⟨0, 0, 0, some 0, none⟩, dataType := none, publishedDate := none }

/-- A minimal well-formed record (empty nutrient array). -/
def goodFood (i : Int) : USDAFood :=
  { fdcId := i, description := some (String.toList "a"), brandOwner := none
    foodPortions := none, foodNutrients := .list [], dataType := none, publishedDate := none }

/-- A record whose nutrient list is a truthy non-array, so extraction throws. -/
def badFood : USDAFood :=
  { fdcId := 5, description := some (String.toList "a"), brandOwner := none
    foodPortions := none, foodNutrients := .malformed, dataType := none, publishedDate := none }

/-- A ten-record batch in which exactly the sixth record has a malformed nutrient list. -/
def batch10 : List USDAFood :=
  [goodFood 0, goodFood 1, goodFood 2, goodFood 3, goodFood 4,
   badFood, goodFood 6, goodFood 7, goodFood 8, goodFood 9]

/-- The search response carrying `batch10`. -/
def resp10 : USDASearchResponse := ⟨some batch10, none, none, none⟩

end NutritionExtractor

/-- A cache entry (`CacheEntry<T>`): payload, creation timestamp, ttl. Timestamps and
ttls are milliseconds, modelled as integers. -/
structure CacheEntry (α : Type) where
  data : α
  timestamp : Int
  ttl : Int
deriving DecidableEq

/-- The cache's `Map` contents, in insertion order. The source instantiates the key
type with `string`; the model is generic in the key type `κ`. -/
structure CacheState (κ α : Type) where
  entries : List (κ × CacheEntry α)
deriving DecidableEq

namespace CacheService

variable {κ α : Type} [DecidableEq κ]

/-- Source `defaultTTL`: five minutes in milliseconds. -/
def defaultTTL : Int := 5 * 60 * 1000

/-- Source `maxSize`: maximum number of cache entries. -/
def maxSize : Nat := 1000

/-- JS `Map.get`. -/
def mapGet (k : κ) (l : List (κ × CacheEntry α)) : Option (CacheEntry α) :=
  match l.find? (fun p => decide (p.1 = k)) with
  | some p => some p.2
  | none => none

/-- JS `Map.set`: update in place when the key is present, else append. -/
def mapSet (k : κ) (e : CacheEntry α) (l : List (κ × CacheEntry α)) :
    List (κ × CacheEntry α) :=
  if l.any (fun p => decide (p.1 = k)) then
    l.map (fun p => if p.1 = k then (k, e) else p)
  else l ++ [(k, e)]

/-- JS `Map.delete`. -/
def mapDelete (k : κ) (l : List (κ × CacheEntry α)) : List (κ × CacheEntry α) :=
  l.filter (fun p => !decide (p.1 = k))

/-- The empty cache. -/
def emptyCache : CacheState κ α := ⟨[]⟩

/-- Source `get`: a missing key is `null`; an entry with `now - timestamp > ttl` is
deleted and reported `null`; otherwise the payload is returned. The returned pair is
(result, cache state after the call). -/
def get (now : Int) (key : κ) (st : CacheState κ α) : Option α × CacheState κ α :=
  match mapGet key st.entries with
  | none => (none, st)
  | some e =>
    if now - e.timestamp > e.ttl then (none, ⟨mapDelete key st.entries⟩)
    else (some e.data, st)

/-- The source's `ttl || this.defaultTTL`: a falsy ttl argument (absent, or `0`)
falls back to the default. -/
def ttlOrDefault : Option Int → Int
  | none => defaultTTL
  | some t => if t = 0 then defaultTTL else t

/-- Source `Math.floor(this.maxSize * 0.1)` — the float product `1000 * 0.1` is
exactly `100` in IEEE double arithmetic, so 100 entries are removed per eviction. -/
def entriesToRemove : Nat := maxSize / 10

/-- Source `evictOldest`: stable-sort the entries by creation timestamp ascending
(the JS comparator `a[1].timestamp - b[1].timestamp`; JS `Array.prototype.sort` is
stable) and delete the first `entriesToRemove` keys. -/
def evictOldest (st : CacheState κ α) : CacheState κ α :=
  let sorted := st.entries.mergeSort (fun a b => decide (a.2.timestamp ≤ b.2.timestamp))
  let toRemove := (sorted.take entriesToRemove).map Prod.fst
  ⟨toRemove.foldl (fun l k => mapDelete k l) st.entries⟩

/-- Source `set`: when the map is at or above capacity, evict first; then insert the
entry with the creation timestamp `now` and the (defaulted) ttl. -/
def set (key : κ) (data : α) (ttl : Option Int) (now : Int) (st : CacheState κ α) :
    CacheState κ α :=
  let st1 := if st.entries.length ≥ maxSize then evictOldest st else st
  ⟨mapSet key ⟨data, now, ttlOrDefault ttl⟩ st1.entries⟩

/-- Source `delete`. -/
def delete (key : κ) (st : CacheState κ α) : CacheState κ α :=
  ⟨mapDelete key st.entries⟩

/-- Source `clear`. -/
def clear (_st : CacheState κ α) : CacheState κ α := ⟨[]⟩

/-- Source `cleanup` (the periodic sweep): collect the keys of all expired entries,
then delete each. -/
def cleanup (now : Int) (st : CacheState κ α) : CacheState κ α :=
  let keysToDelete :=
    (st.entries.filter (fun p => decide (now - p.2.timestamp > p.2.ttl))).map Prod.fst
  ⟨keysToDelete.foldl (fun l k => mapDelete k l) st.entries⟩

/-- One cache operation, for reasoning about operation sequences. -/
inductive CacheOp (κ α : Type) where
  | get (now : Int) (key : κ) : CacheOp κ α
  | set (key : κ) (data : α) (ttl : Option Int) (now : Int) : CacheOp κ α
  | delete (key : κ) : CacheOp κ α
  | clear : CacheOp κ α
  | cleanup (now : Int) : CacheOp κ α

/-- Apply one operation to the cache state. -/
def applyOp (st : CacheState κ α) : CacheOp κ α → CacheState κ α
  | .get now key => (get now key st).2
  | .set key data ttl now => set key data ttl now st
  | .delete key => delete key st
  | .clear => clear st
  | .cleanup now => cleanup now st

/-- Run a sequence of operations from the empty cache. -/
def runOps (ops : List (CacheOp κ α)) : CacheState κ α :=
  ops.foldl applyOp emptyCache

end CacheService

namespace USDAService

/-- The typed failures surfaced by the search path's response validation. -/
inductive SearchError where
  | parsingError : SearchError
  | foodNotFound : SearchError
deriving DecidableEq

/-- The response-body validation performed by `searchFoodsRaw` after the HTTP call
returns (the transport layer and its error mapping are outside this model): a falsy
or non-object body raises `ParsingError`; an absent or empty `foods` array raises
`FoodNotFoundError`; otherwise the parsed body is returned. -/
def searchFoodsRawCheck (data : Option NutritionExtractor.USDASearchResponse) :
    Except SearchError NutritionExtractor.USDASearchResponse :=
  match data with
  | none => .error .parsingError
  | some d =>
    match d.foods with
    | none => .error .foodNotFound
    | some [] => .error .foodNotFound
    | some (_ :: _) => .ok d

end USDAService

namespace NutritionExtractor

/-- Character set named by the specification for description cleaning: alphanumeric,
space, and the punctuation `-.,&()` (the spec's set has no underscore). -/
def claimAllowedChar (c : Char) : Bool :=
  c.isAlphanum || c = ' ' || c = '-' || c = '.' || c = ',' || c = '&' || c = '(' || c = ')'

/-- Description cleaning as the specification words it: trim, collapse whitespace,
strip characters outside the claimed set, truncate to 200, and map an empty cleaning
RESULT to the placeholder. -/
def cleanDescriptionClaim (d : Str) : Str :=
  let r := ((collapseWS (trimWS d)).filter claimAllowedChar).take 200
  if r = [] then unknownFood else r

/-- Split a string into its maximal whitespace-free words (accumulator holds the
current word reversed). -/
def splitWSAux (acc : Str) : Str → List Str
  | [] => if acc = [] then [] else [acc.reverse]
  | c :: rest =>
    if isWS c then
      if acc = [] then splitWSAux [] rest else acc.reverse :: splitWSAux [] rest
    else splitWSAux (c :: acc) rest

/-- The whitespace-separated words of a string. -/
def splitWS (s : Str) : List Str := splitWSAux [] s

/-- Join words with single spaces. -/
def joinWords : List Str → Str
  | [] => []
  | [w] => w
  | w :: w2 :: rest => w ++ ' ' :: joinWords (w2 :: rest)

/-- Description cleaning as amended: the trim-and-collapse phase is expressed as
splitting into whitespace-separated words and rejoining with single spaces, the kept
character set is the code's (word characters, including underscore, whitespace and
the punctuation), and the placeholder arises exactly for an absent or empty INPUT. -/
def cleanDescriptionAmended : Option Str → Str
  | none => unknownFood
  | some [] => unknownFood
  | some s => ((joinWords (splitWS s)).filter allowedChar).take 200

/-- Serving-size derivation as the claim words it: the first portion entry is
preferred, the description regex is attempted only when no usable portion entry
exists, and `100 g` is the final fallback. -/
def extractServingSizeClaim (food : USDAFood) : ServingSize :=
  let fromRegex : ServingSize :=
    match firstServingMatch ((food.description).getD []) with
    | some (a, u) => ⟨a, normalizeUnit u⟩
    | none => ⟨100, String.toList "g"⟩
  match food.foodPortions with
  | some (p :: _) =>
    match p.amount, p.measureUnit with
    | some a, some mu =>
      if a ≠ 0 then
        ⟨a, (truthyStr mu.abbreviation).getD ((truthyStr mu.name).getD (String.toList "g"))⟩
      else fromRegex
    | _, _ => fromRegex
  | _ => fromRegex

/-- Serving-size derivation as amended: the regex over the description takes
precedence; the first usable portion entry is used only when the regex fails to
match; `100 g` is the fallback when both are unavailable. -/
def extractServingSizeAmended (food : USDAFood) : ServingSize :=
  match firstServingMatch ((food.description).getD []) with
  | some (a, u) => ⟨a, normalizeUnit u⟩
  | none =>
    match food.foodPortions with
    | some (p :: _) =>
      match p.amount, p.measureUnit with
      | some a, some mu =>
        if a ≠ 0 then
          ⟨a, (truthyStr mu.abbreviation).getD ((truthyStr mu.name).getD (String.toList "g"))⟩
        else ⟨100, String.toList "g"⟩
      | _, _ => ⟨100, String.toList "g"⟩
    | _ => ⟨100, String.toList "g"⟩

/-- Macronutrient assembly as the claim words it: fiber and sugar are included if
and only if the value ROUNDED to two decimals is strictly positive. -/
def extractMacronutrientsClaim (food : USDAFood) : Except Unit Macronutrients :=
  match extractNutrientValue food NUTRIENT_IDS.PROTEIN,
        extractNutrientValue food NUTRIENT_IDS.CARBOHYDRATES,
        extractNutrientValue food NUTRIENT_IDS.FAT,
        extractNutrientValue food NUTRIENT_IDS.FIBER,
        extractNutrientValue food NUTRIENT_IDS.SUGAR with
  | .ok protein, .ok carbohydrates, .ok fat, .ok fiber, .ok sugar =>
    .ok { protein := round2 protein
          carbohydrates := round2 carbohydrates
          fat := round2 fat
          fiber := if round2 fiber > 0 then some (round2 fiber) else none
          sugar := if round2 sugar > 0 then some (round2 sugar) else none }
  | _, _, _, _, _ => .error ()

end NutritionExtractor

/-- A cache state holding one entry whose age at time 10 (namely 10) exceeds its
ttl (namely 5). -/
def expiredState : CacheState String Nat := ⟨[("k", ⟨7, 0, 5⟩)]⟩

/-- A full cache of 1000 entries with pairwise distinct numeric keys, entry `i`
created at time `i`. -/
def fullState : CacheState Nat Unit :=
  ⟨(List.range CacheService.maxSize).map (fun i => ((i : Nat), ⟨(), (i : Int), 1⟩))⟩

namespace CacheService

variable {κ α : Type} [DecidableEq κ]

theorem find?_map_replace (k : κ) (e : CacheEntry α) :
    ∀ l : List (κ × CacheEntry α), l.any (fun p => decide (p.1 = k)) = true →
      (l.map (fun p => if p.1 = k then (k, e) else p)).find?
        (fun p => decide (p.1 = k)) = some (k, e) := by
  intro l
  induction l with
  | nil => intro h; simp at h
  | cons p t ih =>
    intro h
    by_cases hp : p.1 = k
    · simp [hp]
    · have ht : t.any (fun q => decide (q.1 = k)) = true := by
        simp only [List.any_cons] at h
        simpa [hp] using h
      rw [List.map_cons, List.find?_cons_of_neg]
      · exact ih ht
      · simp [hp]

theorem find?_mapSet_self (k : κ) (e : CacheEntry α) (l : List (κ × CacheEntry α)) :
    (mapSet k e l).find? (fun p => decide (p.1 = k)) = some (k, e) := by
  unfold mapSet
  by_cases h : l.any (fun p => decide (p.1 = k)) = true
  · rw [if_pos h]
    exact find?_map_replace k e l h
  · rw [if_neg h]
    have hnone : l.find? (fun p => decide (p.1 = k)) = none := by
      rw [List.find?_eq_none]
      intro x hx
      have := List.any_eq_false.mp (Bool.eq_false_iff.mpr h) x hx
      simpa using this
    simp [List.find?_append, hnone]

theorem mapGet_mapSet_self (k : κ) (e : CacheEntry α) (l : List (κ × CacheEntry α)) :
    mapGet k (mapSet k e l) = some e := by
  unfold mapGet
  rw [find?_mapSet_self]

end CacheService

/-- C1 (amended): the source's `ttl || defaultTTL` treats a `ttl` of `0` as absent,
so `set(k, v, 0)` stores the entry with the default five-minute ttl — identically to
omitting ttl — and an immediate `get(k)` returns the value rather than absence. -/
theorem C1_set_ttl_zero_uses_default_and_get_hits {κ α : Type} [DecidableEq κ]
    (st : CacheState κ α) (k : κ) (v : α) (t : Int) :
    CacheService.set k v (some 0) t st = CacheService.set k v none t st ∧
    (CacheService.get t k (CacheService.set k v (some 0) t st)).1 = some v := by
  constructor
  · rfl
  · unfold CacheService.get
    rw [show (CacheService.set k v (some 0) t st).entries
          = CacheService.mapSet k ⟨v, t, CacheService.ttlOrDefault (some 0)⟩
              (if st.entries.length ≥ CacheService.maxSize then CacheService.evictOldest st
               else st).entries from rfl]
    rw [CacheService.mapGet_mapSet_self]
    norm_num [CacheService.ttlOrDefault, CacheService.defaultTTL]

/-- C1 (counterexample to the claim as stated): setting with ttl = 0 and reading at
the very same instant returns the stored value, not absence. -/
theorem C1_counterexample :
    (CacheService.get 0 "k"
      (CacheService.set "k" (0 : Nat) (some 0) 0 CacheService.emptyCache)).1 = some 0 := by
  decide

/-- C6: `get` never returns an entry whose age strictly exceeds its ttl; an expired
entry present in the map is reported absent and removed by the same call. -/
theorem C6_get_never_returns_expired {κ α : Type} [DecidableEq κ]
    (st : CacheState κ α) (k : κ) (now : Int) :
    (∀ v, (CacheService.get now k st).1 = some v →
       ∃ e, CacheService.mapGet k st.entries = some e ∧
         now - e.timestamp ≤ e.ttl ∧ e.data = v) ∧
    (∀ e, CacheService.mapGet k st.entries = some e → now - e.timestamp > e.ttl →
       CacheService.get now k st = (none, CacheService.delete k st)) := by
  constructor
  · intro v hv
    unfold CacheService.get at hv
    split at hv
    · simp at hv
    · rename_i e hmg
      split at hv
      · simp at hv
      · rename_i hex
        have hd : e.data = v := by simpa using hv
        exact ⟨e, hmg, not_lt.mp hex, hd⟩
  · intro e hmg hex
    unfold CacheService.get
    rw [hmg]
    show (if now - e.timestamp > e.ttl then
            (none, ({ entries := CacheService.mapDelete k st.entries } : CacheState κ α))
          else (some e.data, st)) = (none, CacheService.delete k st)
    rw [if_pos hex]
    rfl

/-- C6 (witness): a concrete expired entry of age 10 and ttl 5 is reported absent
and deleted. -/
theorem C6_witness :
    CacheService.get 10 "k" expiredState = (none, CacheService.delete "k" expiredState) :=
  (C6_get_never_returns_expired expiredState "k" 10).2 ⟨7, 0, 5⟩ (by decide) (by decide)

/-- C7: a search response that parses into the expected shape but carries an absent
or empty foods array is turned into the FoodNotFound failure, never into a
successful empty result. -/
theorem C7_zero_results_give_not_found (d : NutritionExtractor.USDASearchResponse)
    (h : d.foods = none ∨ d.foods = some []) :
    USDAService.searchFoodsRawCheck (some d) = .error .foodNotFound := by
  rcases h with h | h <;> simp [USDAService.searchFoodsRawCheck, h]

/-- C7 (witness): the parsed response whose foods array is present but empty yields
the FoodNotFound failure. -/
theorem C7_witness :
    USDAService.searchFoodsRawCheck (some ⟨some [], none, none, none⟩) =
      .error .foodNotFound :=
  C7_zero_results_give_not_found ⟨some [], none, none, none⟩ (Or.inr rfl)

/-- C2 (amended): the description regex takes precedence over the portion entry —
`extractServingSize` returns the regex-derived serving whenever the description
matches, consults the first portion entry only when the regex fails, and falls back
to 100 g when neither applies. -/
theorem C2_regex_overrides_portion (food : NutritionExtractor.USDAFood) :
    NutritionExtractor.extractServingSize food =
      NutritionExtractor.extractServingSizeAmended food := by
  unfold NutritionExtractor.extractServingSize NutritionExtractor.extractServingSizeAmended
  cases hm : NutritionExtractor.firstServingMatch ((food.description).getD []) with
  | some pr => simp only [hm]
  | none => simp only [hm]

/-- C2 (counterexample to the claim as stated): on a record with a usable first
portion entry (50 oz) and a description matching the regex (5 g), the code returns
the regex result, not the portion the claim says is preferred. -/
theorem C2_counterexample :
    NutritionExtractor.extractServingSize NutritionExtractor.portionAndRegexFood ≠
      NutritionExtractor.extractServingSizeClaim NutritionExtractor.portionAndRegexFood := by
  decide

namespace NutritionExtractor

theorem extractNutrientValue_ok_nonneg (food : USDAFood) (nid : Int) (v : Rat)
    (h : extractNutrientValue food nid = .ok v) : 0 ≤ v := by
  unfold extractNutrientValue at h
  split at h
  · injection h with h; exact le_of_eq h
  · exact absurd h (by simp)
  · injection h with h; exact le_of_eq h
  · split at h
    · injection h with h; exact le_of_eq h
    · split at h
      · injection h with h; exact le_of_eq h
      · injection h with h; exact le_of_eq h
      · injection h with h
        subst h
        split
        · exact le_refl 0
        · rename_i hneg; exact not_lt.mp hneg

theorem round2_nonneg (x : Rat) (hx : 0 ≤ x) : 0 ≤ round2 x := by
  unfold round2 jsRound
  apply Rat.mkRat_nonneg
  rw [Rat.le_floor]
  have h2 : (0 : Rat) ≤ mkRat 1 2 := Rat.mkRat_nonneg (by norm_num) _
  have h3 : (0 : Rat) ≤ x * 100 := mul_nonneg hx (by norm_num)
  push_cast
  linarith

theorem extractMacronutrients_ok (food : USDAFood) (m : Macronutrients)
    (hm : extractMacronutrients food = .ok m) :
    ∃ p c f fi su,
      extractNutrientValue food NUTRIENT_IDS.PROTEIN = .ok p ∧
      extractNutrientValue food NUTRIENT_IDS.CARBOHYDRATES = .ok c ∧
      extractNutrientValue food NUTRIENT_IDS.FAT = .ok f ∧
      extractNutrientValue food NUTRIENT_IDS.FIBER = .ok fi ∧
      extractNutrientValue food NUTRIENT_IDS.SUGAR = .ok su ∧
      m = { protein := round2 p, carbohydrates := round2 c, fat := round2 f
            fiber := if fi > 0 then some (round2 fi) else none
            sugar := if su > 0 then some (round2 su) else none } := by
  unfold extractMacronutrients at hm
  split at hm
  · rename_i p c f fi su hp hc hf hfi hsu
    injection hm with hm
    exact ⟨p, c, f, fi, su, hp, hc, hf, hfi, hsu, hm.symm⟩
  · exact absurd hm (by simp)

theorem completeServing_value (v : Rat) (r : Str) (a : Rat) (u : Str)
    (h : completeServing v r = some (a, u)) : a = v := by
  unfold completeServing at h
  split at h
  · simp only [Option.some.injEq, Prod.mk.injEq] at h
    exact h.1.symm
  · exact absurd h (by simp)

theorem ratOfParts_nonneg (a b : Str) : 0 ≤ ratOfParts a b := by
  unfold ratOfParts
  exact Rat.mkRat_nonneg (by positivity) _

theorem matchServingAt_value_nonneg (s : Str) (a : Rat) (u : Str)
    (h : matchServingAt s = some (a, u)) : 0 ≤ a := by
  simp only [matchServingAt] at h
  split at h
  · exact absurd h (by simp)
  · split at h
    · split at h
      · exact (completeServing_value _ _ _ _ h) ▸ ratOfParts_nonneg _ _
      · split at h
        · rename_i x hx
          injection h with h
          subst h
          exact (completeServing_value _ _ _ _ hx) ▸ ratOfParts_nonneg _ _
        · exact (completeServing_value _ _ _ _ h) ▸ ratOfParts_nonneg _ _
    · exact (completeServing_value _ _ _ _ h) ▸ ratOfParts_nonneg _ _

theorem firstServingMatch_value_nonneg (s : Str) (a : Rat) (u : Str)
    (h : firstServingMatch s = some (a, u)) : 0 ≤ a := by
  induction s with
  | nil => simp [firstServingMatch] at h
  | cons c rest ih =>
    unfold firstServingMatch at h
    split at h
    · rename_i x hx
      injection h with h
      subst h
      exact matchServingAt_value_nonneg _ _ _ hx
    · exact ih h

theorem extractServingSize_amount_cases (food : USDAFood) :
    0 ≤ (extractServingSize food).amount ∨
      (firstServingMatch ((food.description).getD []) = none ∧
       ∃ p rest, food.foodPortions = some (p :: rest) ∧
         p.amount = some (extractServingSize food).amount) := by
  unfold extractServingSize
  cases hm : firstServingMatch ((food.description).getD []) with
  | some pr =>
    obtain ⟨a, u⟩ := pr
    left
    simp only [hm]
    exact firstServingMatch_value_nonneg _ a u hm
  | none =>
    simp only [hm]
    cases hfp : food.foodPortions with
    | none => left; norm_num
    | some l =>
      cases l with
      | nil => left; simp [hfp]
      | cons p rest =>
        cases hpa : p.amount with
        | none => left; simp [hfp, hpa]
        | some a =>
          cases hmu : p.measureUnit with
          | none => left; simp [hfp, hpa, hmu]
          | some mu =>
            by_cases ha : a = 0
            · left; simp [hfp, hpa, hmu, ha]
            · right
              refine ⟨trivial, p, rest, rfl, ?_⟩
              simp [hfp, hpa, hmu, ha]

end NutritionExtractor

/-- C3 (amended): every nutrient-derived numeric field of a produced summary is
non-negative, with missing, non-numeric or negative upstream nutrient values
resolving to 0; the serving-size amount is non-negative except when it is taken
verbatim from a first portion entry whose amount is negative. -/
theorem C3_extract_nonneg_amended (food : NutritionExtractor.USDAFood)
    (d : NutritionExtractor.ExtractedNutritionData)
    (h : NutritionExtractor.extractSingleFoodNutrition food = some d) :
    0 ≤ d.calories ∧
    0 ≤ d.macronutrients.protein ∧
    0 ≤ d.macronutrients.carbohydrates ∧
    0 ≤ d.macronutrients.fat ∧
    (∀ x, d.macronutrients.fiber = some x → 0 ≤ x) ∧
    (∀ x, d.macronutrients.sugar = some x → 0 ≤ x) ∧
    (∀ nid v, NutritionExtractor.extractNutrientValue food nid = .ok v → 0 ≤ v) ∧
    (∀ nid l n, food.foodNutrients = .list l →
       l.find? (fun x => x.nutrientId == nid) = some n →
       (n.value = .missing ∨ n.value = .nonNumeric ∨ ∃ w, n.value = .num w ∧ w < 0) →
       NutritionExtractor.extractNutrientValue food nid = .ok 0) ∧
    (0 ≤ d.servingSize.amount ∨
       (NutritionExtractor.firstServingMatch ((food.description).getD []) = none ∧
        ∃ p rest, food.foodPortions = some (p :: rest) ∧
          p.amount = some d.servingSize.amount)) := by
  unfold NutritionExtractor.extractSingleFoodNutrition at h
  split at h
  · rename_i m c hm hc
    injection h with h
    subst h
    obtain ⟨p, c', f', fi', su', hp, hc', hf', hfi', hsu', hmm⟩ :=
      NutritionExtractor.extractMacronutrients_ok food m hm
    subst hmm
    refine ⟨NutritionExtractor.extractNutrientValue_ok_nonneg _ _ _ hc,
      NutritionExtractor.round2_nonneg _ (NutritionExtractor.extractNutrientValue_ok_nonneg _ _ _ hp),
      NutritionExtractor.round2_nonneg _ (NutritionExtractor.extractNutrientValue_ok_nonneg _ _ _ hc'),
      NutritionExtractor.round2_nonneg _ (NutritionExtractor.extractNutrientValue_ok_nonneg _ _ _ hf'),
      ?_, ?_, ?_, ?_, ?_⟩
    · intro x hx
      by_cases hfi : fi' > 0
      · simp only [hfi, if_pos] at hx
        injection hx with hx
        exact hx ▸ NutritionExtractor.round2_nonneg _
          (NutritionExtractor.extractNutrientValue_ok_nonneg _ _ _ hfi')
      · simp [hfi] at hx
    · intro x hx
      by_cases hsu2 : su' > 0
      · simp only [hsu2, if_pos] at hx
        injection hx with hx
        exact hx ▸ NutritionExtractor.round2_nonneg _
          (NutritionExtractor.extractNutrientValue_ok_nonneg _ _ _ hsu')
      · simp [hsu2] at hx
    · intro nid v hv
      exact NutritionExtractor.extractNutrientValue_ok_nonneg _ _ _ hv
    · intro nid l n hl hfind hval
      cases l with
      | nil => simp at hfind
      | cons n0 rest =>
        unfold NutritionExtractor.extractNutrientValue
        simp only [hl, hfind]
        rcases hval with h1 | h1 | ⟨w, h1, hw⟩
        · simp [h1]
        · simp [h1]
        · simp [h1, hw]
    · exact NutritionExtractor.extractServingSize_amount_cases food
  · exact absurd h (by simp)

/-- C3 (counterexample to the claim as stated): a record whose first portion entry
has amount −5 produces a summary whose serving-size amount is the negative −5. -/
theorem C3_counterexample :
    (NutritionExtractor.extractSingleFoodNutrition NutritionExtractor.negativePortionFood).map
        (fun d => d.servingSize.amount) = some (-5) ∧ ((-5 : Rat) < 0) :=
  ⟨by decide, by decide⟩

/-- C3 (witness): the amended non-negativity theorem applied to the concrete record
`tinyFiberFood` and its extracted summary. -/
theorem C3_witness :
    NutritionExtractor.extractSingleFoodNutrition NutritionExtractor.tinyFiberFood =
        some NutritionExtractor.tinyFiberData ∧
    (0 ≤ NutritionExtractor.tinyFiberData.calories ∧
     0 ≤ NutritionExtractor.tinyFiberData.macronutrients.protein ∧
     0 ≤ NutritionExtractor.tinyFiberData.macronutrients.carbohydrates ∧
     0 ≤ NutritionExtractor.tinyFiberData.macronutrients.fat ∧
     (∀ x, NutritionExtractor.tinyFiberData.macronutrients.fiber = some x → 0 ≤ x) ∧
     (∀ x, NutritionExtractor.tinyFiberData.macronutrients.sugar = some x → 0 ≤ x) ∧
     (∀ nid v,
        NutritionExtractor.extractNutrientValue NutritionExtractor.tinyFiberFood nid = .ok v →
        0 ≤ v) ∧
     (∀ nid l n, NutritionExtractor.tinyFiberFood.foodNutrients = .list l →
        l.find? (fun x => x.nutrientId == nid) = some n →
        (n.value = .missing ∨ n.value = .nonNumeric ∨ ∃ w, n.value = .num w ∧ w < 0) →
        NutritionExtractor.extractNutrientValue NutritionExtractor.tinyFiberFood nid = .ok 0) ∧
     (0 ≤ NutritionExtractor.tinyFiberData.servingSize.amount ∨
        (NutritionExtractor.firstServingMatch
            ((NutritionExtractor.tinyFiberFood.description).getD []) = none ∧
         ∃ p rest, NutritionExtractor.tinyFiberFood.foodPortions = some (p :: rest) ∧
           p.amount = some NutritionExtractor.tinyFiberData.servingSize.amount))) :=
  ⟨by decide, C3_extract_nonneg_amended _ _ (by decide)⟩

/-- C4 (amended): protein, carbohydrates and fat are always present, rounded to two
decimals; fiber (respectively sugar) is present if and only if the UNROUNDED
extracted value is strictly positive, the stored value being the rounded one, which
can be 0. -/
theorem C4_macros_rounding_and_presence (food : NutritionExtractor.USDAFood)
    (m : NutritionExtractor.Macronutrients) (p c f fi su : Rat)
    (hp : NutritionExtractor.extractNutrientValue food
            NutritionExtractor.NUTRIENT_IDS.PROTEIN = .ok p)
    (hc : NutritionExtractor.extractNutrientValue food
            NutritionExtractor.NUTRIENT_IDS.CARBOHYDRATES = .ok c)
    (hf : NutritionExtractor.extractNutrientValue food
            NutritionExtractor.NUTRIENT_IDS.FAT = .ok f)
    (hfi : NutritionExtractor.extractNutrientValue food
            NutritionExtractor.NUTRIENT_IDS.FIBER = .ok fi)
    (hsu : NutritionExtractor.extractNutrientValue food
            NutritionExtractor.NUTRIENT_IDS.SUGAR = .ok su)
    (hm : NutritionExtractor.extractMacronutrients food = .ok m) :
    m.protein = round2 p ∧ m.carbohydrates = round2 c ∧ m.fat = round2 f ∧
    m.fiber = (if 0 < fi then some (round2 fi) else none) ∧
    m.sugar = (if 0 < su then some (round2 su) else none) ∧
    (m.fiber.isSome ↔ 0 < fi) ∧ (m.sugar.isSome ↔ 0 < su) := by
  obtain ⟨p', c', f', fi', su', hp', hc', hf', hfi', hsu', hmm⟩ :=
    NutritionExtractor.extractMacronutrients_ok food m hm
  rw [hp] at hp'
  rw [hc] at hc'
  rw [hf] at hf'
  rw [hfi] at hfi'
  rw [hsu] at hsu'
  obtain rfl : p = p' := Except.ok.inj hp'
  obtain rfl : c = c' := Except.ok.inj hc'
  obtain rfl : f = f' := Except.ok.inj hf'
  obtain rfl : fi = fi' := Except.ok.inj hfi'
  obtain rfl : su = su' := Except.ok.inj hsu'
  subst hmm
  refine ⟨rfl, rfl, rfl, rfl, rfl, ?_, ?_⟩
  · by_cases h : 0 < fi <;> simp [h]
  · by_cases h : 0 < su <;> simp [h]

/-- C4 (counterexample to the claim as stated): on the record whose fiber value is
0.001, the code includes a fiber entry (of rounded value 0) although 0.001 rounded
to two decimals is 0, not strictly positive; the claim-faithful variant omits it. -/
theorem C4_counterexample :
    NutritionExtractor.extractMacronutrients NutritionExtractor.tinyFiberFood ≠
      NutritionExtractor.extractMacronutrientsClaim NutritionExtractor.tinyFiberFood := by
  decide

/-- C4 (witness): the amended theorem applied to `tinyFiberFood`, whose unrounded
fiber 0.001 is strictly positive, so fiber is present with rounded value 0. -/
theorem C4_witness :
    ((⟨0, 0, 0, some 0, none⟩ : NutritionExtractor.Macronutrients).protein = round2 0 ∧
     (⟨0, 0, 0, some 0, none⟩ : NutritionExtractor.Macronutrients).carbohydrates = round2 0 ∧
     (⟨0, 0, 0, some 0, none⟩ : NutritionExtractor.Macronutrients).fat = round2 0 ∧
     (⟨0, 0, 0, some 0, none⟩ : NutritionExtractor.Macronutrients).fiber =
       (if 0 < (1 / 1000 : Rat) then some (round2 (1 / 1000)) else none) ∧
     (⟨0, 0, 0, some 0, none⟩ : NutritionExtractor.Macronutrients).sugar =
       (if 0 < (0 : Rat) then some (round2 0) else none) ∧
     ((⟨0, 0, 0, some 0, none⟩ : NutritionExtractor.Macronutrients).fiber.isSome ↔
       0 < (1 / 1000 : Rat)) ∧
     ((⟨0, 0, 0, some 0, none⟩ : NutritionExtractor.Macronutrients).sugar.isSome ↔
       0 < (0 : Rat))) :=
  C4_macros_rounding_and_presence NutritionExtractor.tinyFiberFood
    ⟨0, 0, 0, some 0, none⟩ 0 0 0 (1 / 1000) 0
    (by decide) (by decide) (by decide) (by decide) (by decide) (by decide)

/-- C8: batch extraction returns exactly the summaries of the records whose
individual extraction succeeds, in order, dropping failing records; in particular
the concrete ten-record batch with one malformed nutrient list yields nine
summaries, not zero. -/
theorem C8_extractMany_drops_failures :
    (∀ (resp : NutritionExtractor.USDASearchResponse) (q : Str),
       (NutritionExtractor.extractNutritionData resp q).foods =
         ((resp.foods).getD []).filterMap NutritionExtractor.extractSingleFoodNutrition) ∧
    NutritionExtractor.batch10.length = 10 ∧
    NutritionExtractor.extractSingleFoodNutrition NutritionExtractor.badFood = none ∧
    (NutritionExtractor.extractNutritionData NutritionExtractor.resp10
        (String.toList "q")).foods.length = 9 := by
  refine ⟨?_, by decide, by decide, by decide⟩
  intro resp q
  obtain ⟨fo, th, cp, tp⟩ := resp
  cases fo with
  | none => simp [NutritionExtractor.extractNutritionData]
  | some l =>
    cases l with
    | nil => simp [NutritionExtractor.extractNutritionData]
    | cons f fs =>
      simp only [NutritionExtractor.extractNutritionData, Option.getD_some]
      rw [List.filterMap_map]
      rfl

theorem trimTrail_eq_nil_iff (s : Str) : trimTrail s = [] ↔ ∀ c ∈ s, isWS c := by
  unfold trimTrail
  rw [List.reverse_eq_nil_iff, List.dropWhile_eq_nil_iff]
  constructor
  · intro h c hc
    exact h c (List.mem_reverse.mpr hc)
  · intro h c hc
    exact h c (List.mem_reverse.mp hc)

theorem trimTrail_append (xs ys : Str) :
    trimTrail (xs ++ ys) =
      if trimTrail ys = [] then trimTrail xs else xs ++ trimTrail ys := by
  unfold trimTrail
  rw [List.reverse_append, List.dropWhile_append]
  by_cases h : (ys.reverse.dropWhile isWS).isEmpty
  · rw [if_pos h]
    have h2 : ys.reverse.dropWhile isWS = [] := by
      cases hd : ys.reverse.dropWhile isWS with
      | nil => rfl
      | cons a l => rw [hd] at h; simp at h
    rw [if_pos (by rw [h2]; rfl)]
  · rw [if_neg h]
    have h2 : ys.reverse.dropWhile isWS ≠ [] := by
      intro hc
      rw [hc] at h
      simp at h
    rw [if_neg (by simpa using h2)]
    rw [List.reverse_append]
    simp

theorem trimTrail_cons_of_not_ws (c : Char) (t : Str) (hc : ¬ isWS c = true) :
    trimTrail (c :: t) = c :: trimTrail t := by
  have h := trimTrail_append [c] t
  rw [List.singleton_append] at h
  rw [h]
  by_cases ht : trimTrail t = []
  · rw [if_pos ht, ht]
    unfold trimTrail
    simp [List.dropWhile_cons, hc]
  · rw [if_neg ht]
    rfl

theorem trimTrail_cons_of_trail_ne_nil (c : Char) (t : Str) (ht : trimTrail t ≠ []) :
    trimTrail (c :: t) = c :: trimTrail t := by
  have h := trimTrail_append [c] t
  rw [List.singleton_append] at h
  rw [h, if_neg ht]
  rfl

theorem trimTrail_of_all_not_ws (w : Str) (hw : ∀ x ∈ w, ¬ isWS x = true) :
    trimTrail w = w := by
  induction w with
  | nil => rfl
  | cons c t ih =>
    rw [trimTrail_cons_of_not_ws c t (hw c (List.mem_cons_self c t))]
    rw [ih (fun x hx => hw x (List.mem_cons_of_mem c hx))]

theorem dropWhile_trimTrail_comm (x : Str) :
    (trimTrail x).dropWhile isWS = trimTrail (x.dropWhile isWS) := by
  induction x with
  | nil => rfl
  | cons c t ih =>
    by_cases hc : isWS c = true
    · by_cases ht : trimTrail t = []
      · have hall_t : ∀ a ∈ t, isWS a :=
          fun a ha => (trimTrail_eq_nil_iff t).mp ht a ha
        have h1 : trimTrail (c :: t) = [] := by
          apply (trimTrail_eq_nil_iff _).mpr
          intro a ha
          rcases List.mem_cons.mp ha with h | h
          · exact h ▸ hc
          · exact hall_t a h
        rw [h1, List.dropWhile_cons_of_pos hc, List.dropWhile_eq_nil_iff.mpr hall_t]
        rfl
      · rw [trimTrail_cons_of_trail_ne_nil c t ht]
        rw [List.dropWhile_cons_of_pos hc, List.dropWhile_cons_of_pos hc]
        exact ih
    · rw [trimTrail_cons_of_not_ws c t hc]
      simp only [List.dropWhile_cons_of_neg hc]
      rw [trimTrail_cons_of_not_ws c t hc]

theorem trimWS_cons_of_ws (c : Char) (t : Str) (hc : isWS c = true) :
    trimWS (c :: t) = trimWS t := by
  unfold trimWS
  rw [List.dropWhile_cons_of_pos hc]

theorem trimWS_cons_of_not_ws (c : Char) (t : Str) (hc : ¬ isWS c = true) :
    trimWS (c :: t) = c :: trimTrail t := by
  show ((List.dropWhile isWS (c :: t)).reverse.dropWhile isWS).reverse = _
  rw [List.dropWhile_cons_of_neg hc]
  exact trimTrail_cons_of_not_ws c t hc

theorem trimWS_eq_trimTrail_dropWhile (s : Str) :
    trimWS s = trimTrail (s.dropWhile isWS) := rfl

theorem collapseWS_cons_of_not_ws (c : Char) (xs : Str) (hc : ¬ isWS c = true) :
    collapseWS (c :: xs) = c :: collapseWS xs := by
  cases xs with
  | nil => simp [collapseWS, hc]
  | cons d r => simp [collapseWS, hc]

theorem collapseWS_append_of_all_not_ws (w z : Str) (hw : ∀ x ∈ w, ¬ isWS x = true) :
    collapseWS (w ++ z) = w ++ collapseWS z := by
  induction w with
  | nil => rfl
  | cons c t ih =>
    rw [List.cons_append, collapseWS_cons_of_not_ws c _ (hw c (List.mem_cons_self c t))]
    rw [ih (fun x hx => hw x (List.mem_cons_of_mem c hx))]
    rfl

theorem collapseWS_of_all_not_ws (w : Str) (hw : ∀ x ∈ w, ¬ isWS x = true) :
    collapseWS w = w := by
  have h := collapseWS_append_of_all_not_ws w [] hw
  have h0 : collapseWS [] = [] := rfl
  rw [h0] at h
  simpa using h

theorem collapseWS_cons_of_ws (c : Char) (xs : Str) (hc : isWS c = true) :
    collapseWS (c :: xs) = ' ' :: collapseWS (xs.dropWhile isWS) := by
  induction xs generalizing c with
  | nil => simp [collapseWS, hc]
  | cons d r ih =>
    by_cases hd : isWS d = true
    · show collapseWS (c :: d :: r) = _
      rw [show collapseWS (c :: d :: r) = collapseWS (d :: r) by
            simp [collapseWS, hc, hd]]
      rw [ih d hd, List.dropWhile_cons_of_pos hd]
    · show collapseWS (c :: d :: r) = _
      rw [show collapseWS (c :: d :: r) = ' ' :: collapseWS (d :: r) by
            simp [collapseWS, hc, hd]]
      rw [List.dropWhile_cons_of_neg hd]

namespace NutritionExtractor

theorem splitWSAux_cons_of_ws (c : Char) (rest : Str) (hc : isWS c = true) :
    splitWSAux [] (c :: rest) = splitWSAux [] rest := by
  simp [splitWSAux, hc]

theorem splitWSAux_word (w : Str) (hw : ∀ x ∈ w, ¬ isWS x = true) :
    ∀ (acc r : Str), splitWSAux acc (w ++ r) = splitWSAux (w.reverse ++ acc) r := by
  induction w with
  | nil => intro acc r; rfl
  | cons c t ih =>
    intro acc r
    rw [List.cons_append]
    rw [show splitWSAux acc (c :: (t ++ r)) = splitWSAux (c :: acc) (t ++ r) by
          simp [splitWSAux, hw c (List.mem_cons_self c t)]]
    rw [ih (fun x hx => hw x (List.mem_cons_of_mem c hx)) (c :: acc) r]
    simp

theorem splitWSAux_ne_nil_acc (acc : Str) (hacc : acc ≠ []) :
    ∀ s : Str, splitWSAux acc s =
      (acc.reverse ++ s.takeWhile (fun c => !isWS c)) ::
        splitWS (s.dropWhile (fun c => !isWS c)) := by
  intro s
  induction s generalizing acc with
  | nil => simp [splitWSAux, hacc, splitWS]
  | cons c r ih =>
    by_cases hc : isWS c = true
    · rw [show splitWSAux acc (c :: r) = acc.reverse :: splitWSAux [] r by
            simp [splitWSAux, hc, hacc]]
      rw [show (c :: r).takeWhile (fun c => !isWS c) = [] by
            simp [List.takeWhile_cons, hc]]
      rw [show (c :: r).dropWhile (fun c => !isWS c) = c :: r by
            simp [List.dropWhile_cons, hc]]
      rw [show splitWS (c :: r) = splitWSAux [] r from splitWSAux_cons_of_ws c r hc]
      simp
    · rw [show splitWSAux acc (c :: r) = splitWSAux (c :: acc) r by
            simp [splitWSAux, hc]]
      rw [ih (c :: acc) (by simp)]
      rw [show (c :: r).takeWhile (fun c => !isWS c) = c :: r.takeWhile (fun c => !isWS c) by
            simp [List.takeWhile_cons, hc]]
      rw [show (c :: r).dropWhile (fun c => !isWS c) = r.dropWhile (fun c => !isWS c) by
            simp [List.dropWhile_cons, hc]]
      simp

theorem splitWS_of_all_ws (s : Str) (hs : ∀ x ∈ s, isWS x = true) :
    splitWS s = [] := by
  induction s with
  | nil => rfl
  | cons c r ih =>
    unfold splitWS
    rw [splitWSAux_cons_of_ws c r (hs c (List.mem_cons_self c r))]
    exact ih (fun x hx => hs x (List.mem_cons_of_mem c hx))

theorem splitWS_ne_nil_of_not_ws (s : Str) (hx : ∃ x ∈ s, ¬ isWS x = true) :
    splitWS s ≠ [] := by
  induction s with
  | nil => simp at hx
  | cons c r ih =>
    by_cases hc : isWS c = true
    · unfold splitWS
      rw [splitWSAux_cons_of_ws c r hc]
      apply ih
      rcases hx with ⟨x, hmem, hxw⟩
      rcases List.mem_cons.mp hmem with h | h
      · exact absurd (h ▸ hc) hxw
      · exact ⟨x, h, hxw⟩
    · unfold splitWS
      rw [show splitWSAux [] (c :: r) = splitWSAux [c] r by simp [splitWSAux, hc]]
      rw [splitWSAux_ne_nil_acc [c] (by simp) r]
      simp

theorem joinWords_cons_ne_nil (x : Str) (l : List Str) (hl : l ≠ []) :
    joinWords (x :: l) = x ++ ' ' :: joinWords l := by
  cases l with
  | nil => exact absurd rfl hl
  | cons y r => rfl

end NutritionExtractor

theorem dropWhile_head_false (p : Char → Bool) :
    ∀ (l : List Char) (d : Char) (r : List Char), l.dropWhile p = d :: r → p d = false := by
  intro l
  induction l with
  | nil => intro d r h; simp at h
  | cons a t ih =>
    intro d r h
    rw [List.dropWhile_cons] at h
    by_cases ha : p a = true
    · rw [if_pos ha] at h
      exact ih d r h
    · rw [if_neg ha] at h
      injection h with h1 h2
      rw [← h1]
      exact Bool.eq_false_iff.mpr ha

theorem collapse_trim_eq_joinWords :
    (s : Str) → collapseWS (trimWS s) =
      NutritionExtractor.joinWords (NutritionExtractor.splitWS s)
  | [] => rfl
  | c :: t => by
    by_cases hc : isWS c = true
    · rw [trimWS_cons_of_ws c t hc]
      unfold NutritionExtractor.splitWS
      rw [NutritionExtractor.splitWSAux_cons_of_ws c t hc]
      exact collapse_trim_eq_joinWords t
    · rw [trimWS_cons_of_not_ws c t hc, collapseWS_cons_of_not_ws c _ hc]
      have hsplit : NutritionExtractor.splitWS (c :: t) =
          NutritionExtractor.splitWSAux [c] t := by
        unfold NutritionExtractor.splitWS
        simp [NutritionExtractor.splitWSAux, hc]
      rw [hsplit, NutritionExtractor.splitWSAux_ne_nil_acc [c] (by simp) t]
      have hW : ∀ x ∈ t.takeWhile (fun x => !isWS x), ¬ isWS x = true := by
        intro x hx
        have h2 := List.mem_takeWhile_imp hx
        simpa using h2
      have hdecomp : t.takeWhile (fun x => !isWS x) ++ t.dropWhile (fun x => !isWS x) = t :=
        List.takeWhile_append_dropWhile (fun x => !isWS x) t
      by_cases ht2 : trimTrail (t.dropWhile (fun x => !isWS x)) = []
      · have hallws : ∀ x ∈ t.dropWhile (fun x => !isWS x), isWS x :=
          (trimTrail_eq_nil_iff _).mp ht2
        have h1 : trimTrail t = t.takeWhile (fun x => !isWS x) := by
          conv_lhs => rw [← hdecomp]
          rw [trimTrail_append, if_pos ht2]
          exact trimTrail_of_all_not_ws _ hW
        rw [h1, collapseWS_of_all_not_ws _ hW,
            NutritionExtractor.splitWS_of_all_ws _ hallws]
        simp [NutritionExtractor.joinWords]
      · have hT2ne : t.dropWhile (fun x => !isWS x) ≠ [] := by
          intro hnil
          rw [hnil] at ht2
          exact ht2 rfl
        have hex : ∃ x ∈ t.dropWhile (fun x => !isWS x), ¬ isWS x = true := by
          by_contra hno
          push_neg at hno
          exact ht2 ((trimTrail_eq_nil_iff _).mpr (by
            intro x hx
            have := hno x hx
            simpa using this))
        have hsne : NutritionExtractor.splitWS (t.dropWhile (fun x => !isWS x)) ≠ [] :=
          NutritionExtractor.splitWS_ne_nil_of_not_ws _ hex
        have h1 : trimTrail t =
            t.takeWhile (fun x => !isWS x) ++ trimTrail (t.dropWhile (fun x => !isWS x)) := by
          conv_lhs => rw [← hdecomp]
          rw [trimTrail_append, if_neg ht2]
        have hIH := collapse_trim_eq_joinWords (t.dropWhile (fun x => !isWS x))
        rcases hd : t.dropWhile (fun x => !isWS x) with _ | ⟨d, r⟩
        · exact absurd hd hT2ne
        · have hdws : isWS d = true := by
            have h2 := dropWhile_head_false (fun x => !isWS x) t d r hd
            simpa using h2
          have hrne : trimTrail r ≠ [] := by
            intro hrnil
            apply ht2
            rw [hd]
            apply (trimTrail_eq_nil_iff _).mpr
            intro x hx
            rcases List.mem_cons.mp hx with h | h
            · exact h ▸ hdws
            · exact (trimTrail_eq_nil_iff r).mp hrnil x h
          have h2 : trimTrail (t.dropWhile (fun x => !isWS x)) = d :: trimTrail r := by
            rw [hd]
            exact trimTrail_cons_of_trail_ne_nil d r hrne
          rw [h1, h2, collapseWS_append_of_all_not_ws _ _ hW,
              collapseWS_cons_of_ws d _ hdws, dropWhile_trimTrail_comm r]
          have h3 : trimWS (t.dropWhile (fun x => !isWS x)) = trimTrail (r.dropWhile isWS) := by
            rw [hd, trimWS_cons_of_ws d r hdws, trimWS_eq_trimTrail_dropWhile]
          rw [h3] at hIH
          rw [hd] at hIH hsne
          rw [NutritionExtractor.joinWords_cons_ne_nil _ _ hsne]
          rw [← hIH]
          simp
termination_by s => s.length
decreasing_by
  · simp
  · have h4 : (t.dropWhile (fun x => !isWS x)).length ≤ t.length :=
      (List.dropWhile_sublist (fun x => !isWS x)).length_le
    simp
    omega

/-- C5 (amended): the cleaned description equals the input after trimming and
collapsing whitespace (expressed as splitting into whitespace-separated words and
rejoining with single spaces), stripping characters outside the code's kept set —
word characters INCLUDING underscore, whitespace, and `-.,&()` — and truncating to
200 characters; the "Unknown Food" placeholder is produced exactly when the input
description is absent or empty, not when the cleaning result is empty. -/
theorem C5_clean_description_amended (d : Option Str) :
    NutritionExtractor.cleanDescription d = NutritionExtractor.cleanDescriptionAmended d := by
  cases d with
  | none => rfl
  | some s =>
    cases s with
    | nil => rfl
    | cons c t =>
      show ((collapseWS (trimWS (c :: t))).filter allowedChar).take 200 =
        ((NutritionExtractor.joinWords (NutritionExtractor.splitWS (c :: t))).filter
          allowedChar).take 200
      rw [collapse_trim_eq_joinWords]

/-- C5 (counterexample to the claim as stated): on the input "___" the code keeps
the underscores (they are word characters, which the strip regex retains) and
returns "___", while the claimed pipeline strips them, obtains the empty string, and
maps it to the "Unknown Food" placeholder. -/
theorem C5_counterexample :
    NutritionExtractor.cleanDescription (some (String.toList "___")) ≠
      NutritionExtractor.cleanDescriptionClaim (String.toList "___") := by
  decide

namespace CacheService

variable {κ α : Type} [DecidableEq κ]

theorem foldl_mapDelete_eq_filter (ks : List κ) (l : List (κ × CacheEntry α)) :
    ks.foldl (fun l k => mapDelete k l) l =
      l.filter (fun p => !decide (p.1 ∈ ks)) := by
  induction ks generalizing l with
  | nil => simp
  | cons k ks ih =>
    rw [List.foldl_cons, ih]
    unfold mapDelete
    rw [List.filter_filter]
    apply List.filter_congr
    intro p _
    by_cases h1 : p.1 = k <;> by_cases h2 : p.1 ∈ ks <;> simp [h1, h2]

theorem length_mapSet_le (k : κ) (e : CacheEntry α) (l : List (κ × CacheEntry α)) :
    (mapSet k e l).length ≤ l.length + 1 := by
  unfold mapSet
  split
  · rw [List.length_map]; omega
  · rw [List.length_append]; simp

theorem nodup_keys_mapSet (k : κ) (e : CacheEntry α) (l : List (κ × CacheEntry α))
    (h : (l.map Prod.fst).Nodup) : ((mapSet k e l).map Prod.fst).Nodup := by
  unfold mapSet
  split
  · rw [List.map_map]
    have heq : (Prod.fst ∘ fun p : κ × CacheEntry α => if p.1 = k then (k, e) else p) =
        Prod.fst := by
      funext p
      by_cases hp : p.1 = k <;> simp [hp]
    rw [heq]
    exact h
  · rename_i hany
    rw [List.map_append]
    rw [List.nodup_append]
    refine ⟨h, by simp, ?_⟩
    intro x hx
    simp only [List.map_cons, List.map_nil, List.mem_cons, List.not_mem_nil, or_false]
    intro hxk
    rcases List.mem_map.mp hx with ⟨p, hp, hpx⟩
    have := List.any_eq_false.mp (Bool.eq_false_iff.mpr hany) p hp
    simp only [decide_eq_true_eq] at this
    exact this (hpx.trans hxk)

theorem nodup_keys_filter (q : κ × CacheEntry α → Bool) (l : List (κ × CacheEntry α))
    (h : (l.map Prod.fst).Nodup) : ((l.filter q).map Prod.fst).Nodup :=
  ((List.filter_sublist l).map Prod.fst).nodup h

theorem length_filter_not_mem_keys (l : List (κ × CacheEntry α)) (ks : List κ)
    (hn : (l.map Prod.fst).Nodup) (hks : ks.Nodup)
    (hsub : ∀ k ∈ ks, k ∈ l.map Prod.fst) :
    (l.filter (fun p => !decide (p.1 ∈ ks))).length = l.length - ks.length := by
  have e1 : (l.filter (fun p => decide (p.1 ∈ ks))).length
      = ((l.map Prod.fst).filter (fun x => decide (x ∈ ks))).length := by
    rw [List.filter_map, List.length_map]
    rfl
  have hperm : List.Perm ((l.map Prod.fst).filter (fun x => decide (x ∈ ks))) ks := by
    rw [List.perm_ext_iff_of_nodup (hn.filter _) hks]
    intro a
    constructor
    · intro ha
      have := List.of_mem_filter ha
      simpa using this
    · intro ha
      apply List.mem_filter.mpr
      exact ⟨hsub a ha, by simpa using ha⟩
  have h1 : (l.filter (fun p => decide (p.1 ∈ ks))).length = ks.length := by
    rw [e1, hperm.length_eq]
  have h2 : (l.filter (fun p => decide (p.1 ∈ ks))).length
      + (l.filter (fun p => !decide (p.1 ∈ ks))).length = l.length := by
    have := (List.filter_append_perm (fun p => decide (p.1 ∈ ks)) l).length_eq
    rw [List.length_append] at this
    exact this
  omega

theorem evictOldest_keys_facts (st : CacheState κ α)
    (hn : (st.entries.map Prod.fst).Nodup) :
    (((st.entries.mergeSort
          (fun a b => decide (a.2.timestamp ≤ b.2.timestamp))).take entriesToRemove).map
        Prod.fst).Nodup ∧
    (∀ k ∈ ((st.entries.mergeSort
          (fun a b => decide (a.2.timestamp ≤ b.2.timestamp))).take entriesToRemove).map
        Prod.fst, k ∈ st.entries.map Prod.fst) := by
  have hperm :
      List.Perm ((st.entries.mergeSort
          (fun a b => decide (a.2.timestamp ≤ b.2.timestamp))).map Prod.fst)
        (st.entries.map Prod.fst) :=
    (List.mergeSort_perm st.entries _).map Prod.fst
  have hnodup_sorted :
      ((st.entries.mergeSort
          (fun a b => decide (a.2.timestamp ≤ b.2.timestamp))).map Prod.fst).Nodup :=
    hperm.nodup_iff.mpr hn
  constructor
  · rw [List.map_take]
    exact ((List.take_sublist _ _).nodup hnodup_sorted)
  · intro k hk
    rw [List.map_take] at hk
    have h1 : k ∈ (st.entries.mergeSort
        (fun a b => decide (a.2.timestamp ≤ b.2.timestamp))).map Prod.fst :=
      List.take_subset _ _ hk
    exact hperm.mem_iff.mp h1

theorem evictOldest_length (st : CacheState κ α)
    (hn : (st.entries.map Prod.fst).Nodup)
    (hlen : entriesToRemove ≤ st.entries.length) :
    (evictOldest st).entries.length = st.entries.length - entriesToRemove := by
  obtain ⟨hks, hsub⟩ := evictOldest_keys_facts st hn
  show ((((st.entries.mergeSort
      (fun a b => decide (a.2.timestamp ≤ b.2.timestamp))).take entriesToRemove).map
        Prod.fst).foldl (fun l k => mapDelete k l) st.entries).length = _
  rw [foldl_mapDelete_eq_filter]
  rw [length_filter_not_mem_keys st.entries _ hn hks hsub]
  rw [List.length_map, List.length_take, List.length_mergeSort]
  omega

/-- Well-formedness of a cache state: keys are pairwise distinct (as in a JS `Map`)
and the entry count is within the capacity bound. -/
def WF (st : CacheState κ α) : Prop :=
  (st.entries.map Prod.fst).Nodup ∧ st.entries.length ≤ maxSize

theorem WF_filter (st : CacheState κ α) (q : κ × CacheEntry α → Bool) (h : WF st) :
    WF (⟨st.entries.filter q⟩ : CacheState κ α) := by
  refine ⟨nodup_keys_filter q st.entries h.1, ?_⟩
  exact le_trans (List.length_filter_le q st.entries) h.2

theorem WF_applyOp (st : CacheState κ α) (op : CacheOp κ α) (h : WF st) :
    WF (applyOp st op) := by
  cases op with
  | get now key =>
    show WF (get now key st).2
    unfold get
    cases hmg : mapGet key st.entries with
    | none => exact h
    | some e =>
      show WF (if now - e.timestamp > e.ttl then
          ((none : Option α), (⟨mapDelete key st.entries⟩ : CacheState κ α))
        else (some e.data, st)).2
      by_cases hex : now - e.timestamp > e.ttl
      · rw [if_pos hex]
        exact WF_filter st _ h
      · rw [if_neg hex]
        exact h
  | set key data ttl now =>
    show WF (set key data ttl now st)
    unfold set
    by_cases hfull : st.entries.length ≥ maxSize
    · rw [if_pos hfull]
      have hlen0 : st.entries.length = maxSize := le_antisymm h.2 hfull
      have hev : (evictOldest st).entries.length
          = st.entries.length - entriesToRemove := by
        apply evictOldest_length st h.1
        rw [hlen0]
        norm_num [entriesToRemove, maxSize]
      have hevn : ((evictOldest st).entries.map Prod.fst).Nodup := by
        show ((((st.entries.mergeSort
            (fun a b => decide (a.2.timestamp ≤ b.2.timestamp))).take entriesToRemove).map
              Prod.fst).foldl (fun l k => mapDelete k l) st.entries).map Prod.fst |>.Nodup
        rw [foldl_mapDelete_eq_filter]
        exact nodup_keys_filter _ _ h.1
      refine ⟨nodup_keys_mapSet _ _ _ hevn, ?_⟩
      have h2 := length_mapSet_le key ⟨data, now, ttlOrDefault ttl⟩ (evictOldest st).entries
      rw [hev, hlen0] at h2
      calc (mapSet key ⟨data, now, ttlOrDefault ttl⟩ (evictOldest st).entries).length
          ≤ maxSize - entriesToRemove + 1 := h2
        _ ≤ maxSize := by norm_num [entriesToRemove, maxSize]
    · rw [if_neg hfull]
      refine ⟨nodup_keys_mapSet _ _ _ h.1, ?_⟩
      show (mapSet key ⟨data, now, ttlOrDefault ttl⟩ st.entries).length ≤ maxSize
      have h2 := length_mapSet_le key ⟨data, now, ttlOrDefault ttl⟩ st.entries
      have h3 := h.2
      omega
  | delete key =>
    exact WF_filter st _ h
  | clear =>
    show WF (⟨[]⟩ : CacheState κ α)
    exact ⟨by simp, by norm_num [maxSize]⟩
  | cleanup now =>
    show WF (cleanup now st)
    unfold cleanup
    have : WF (⟨(((st.entries.filter
        (fun p => decide (now - p.2.timestamp > p.2.ttl))).map Prod.fst).foldl
          (fun l k => mapDelete k l) st.entries)⟩ : CacheState κ α) := by
      rw [foldl_mapDelete_eq_filter]
      exact WF_filter st _ h
    exact this

theorem WF_foldl (ops : List (CacheOp κ α)) :
    ∀ st : CacheState κ α, WF st → WF (ops.foldl applyOp st) := by
  induction ops with
  | nil => intro st h; exact h
  | cons op ops ih =>
    intro st h
    rw [List.foldl_cons]
    exact ih _ (WF_applyOp st op h)

end CacheService

/-- C10: starting from the empty cache, after any sequence of get, set, delete,
clear and cleanup operations the number of entries in the cache map never exceeds
the fixed maximum of 1000. -/
theorem C10_size_never_exceeds_max {κ α : Type} [DecidableEq κ]
    (ops : List (CacheService.CacheOp κ α)) :
    (CacheService.runOps ops).entries.length ≤ CacheService.maxSize := by
  have hempty : CacheService.WF (CacheService.emptyCache : CacheState κ α) :=
    ⟨by simp [CacheService.emptyCache], by simp [CacheService.emptyCache]⟩
  exact (CacheService.WF_foldl ops CacheService.emptyCache hempty).2

/-- C9: a set on a cache already holding the maximum entry count first evicts a set
of exactly 10 percent of the entries, all of them no younger than every surviving
entry (oldest-by-timestamp first), and only then inserts the new entry. -/
theorem C9_set_at_capacity_evicts_oldest_tenth {κ α : Type} [DecidableEq κ]
    (st : CacheState κ α) (k : κ) (v : α) (ttl : Option Int) (now : Int)
    (hn : (st.entries.map Prod.fst).Nodup)
    (hlen : st.entries.length = CacheService.maxSize) :
    ∃ R : List (κ × CacheEntry α),
      R.length = CacheService.entriesToRemove ∧
      (∀ r ∈ R, r ∈ st.entries) ∧
      (∀ r ∈ R, ∀ e ∈ st.entries, e.1 ∉ R.map Prod.fst →
        r.2.timestamp ≤ e.2.timestamp) ∧
      (CacheService.set k v ttl now st).entries =
        CacheService.mapSet k ⟨v, now, CacheService.ttlOrDefault ttl⟩
          (st.entries.filter (fun p => !decide (p.1 ∈ R.map Prod.fst))) := by
  refine ⟨(st.entries.mergeSort
      (fun a b => decide (a.2.timestamp ≤ b.2.timestamp))).take CacheService.entriesToRemove,
    ?_, ?_, ?_, ?_⟩
  · rw [List.length_take, List.length_mergeSort, hlen]
    norm_num [CacheService.entriesToRemove, CacheService.maxSize]
  · intro r hr
    have h1 := List.take_subset _ _ hr
    exact List.mem_mergeSort.mp h1
  · intro r hr e he hnk
    have htrans : ∀ (a b c : κ × CacheEntry α),
        (fun a b => decide (a.2.timestamp ≤ b.2.timestamp)) a b →
        (fun a b => decide (a.2.timestamp ≤ b.2.timestamp)) b c →
        (fun a b => decide (a.2.timestamp ≤ b.2.timestamp)) a c := by
      intro a b c hab hbc
      simp only [decide_eq_true_eq] at hab hbc ⊢
      exact le_trans hab hbc
    have htotal : ∀ (a b : κ × CacheEntry α),
        ((fun a b => decide (a.2.timestamp ≤ b.2.timestamp)) a b ||
         (fun a b => decide (a.2.timestamp ≤ b.2.timestamp)) b a) = true := by
      intro a b
      rcases Int.le_total a.2.timestamp b.2.timestamp with h | h <;> simp [h]
    have hpair := List.sorted_mergeSort htrans htotal st.entries
    rw [← List.take_append_drop CacheService.entriesToRemove
      (st.entries.mergeSort (fun a b => decide (a.2.timestamp ≤ b.2.timestamp)))] at hpair
    have hesorted : e ∈ st.entries.mergeSort
        (fun a b => decide (a.2.timestamp ≤ b.2.timestamp)) := List.mem_mergeSort.mpr he
    rw [← List.take_append_drop CacheService.entriesToRemove
      (st.entries.mergeSort (fun a b => decide (a.2.timestamp ≤ b.2.timestamp)))] at hesorted
    rcases List.mem_append.mp hesorted with h1 | h1
    · exact absurd (List.mem_map_of_mem Prod.fst h1) hnk
    · have h2 := (List.pairwise_append.mp hpair).2.2 r hr e h1
      simpa using h2
  · show (CacheService.set k v ttl now st).entries = _
    unfold CacheService.set
    rw [if_pos (by rw [hlen])]
    show CacheService.mapSet k ⟨v, now, CacheService.ttlOrDefault ttl⟩
        (CacheService.evictOldest st).entries = _
    congr 1
    show ((((st.entries.mergeSort
        (fun a b => decide (a.2.timestamp ≤ b.2.timestamp))).take
          CacheService.entriesToRemove).map Prod.fst).foldl
            (fun l k => CacheService.mapDelete k l) st.entries) = _
    rw [CacheService.foldl_mapDelete_eq_filter]

/-- C9 (witness): the eviction theorem applied to a concrete full cache of 1000
distinct numeric keys. -/
theorem C9_witness :
    ∃ R : List (Nat × CacheEntry Unit),
      R.length = CacheService.entriesToRemove ∧
      (∀ r ∈ R, r ∈ fullState.entries) ∧
      (∀ r ∈ R, ∀ e ∈ fullState.entries, e.1 ∉ R.map Prod.fst →
        r.2.timestamp ≤ e.2.timestamp) ∧
      (CacheService.set 0 () none 5000 fullState).entries =
        CacheService.mapSet 0 ⟨(), 5000, CacheService.ttlOrDefault none⟩
          (fullState.entries.filter (fun p => !decide (p.1 ∈ R.map Prod.fst))) :=
  C9_set_at_capacity_evicts_oldest_tenth fullState 0 () none 5000
    (by
      simp only [fullState, List.map_map]
      rw [show (Prod.fst ∘ fun i : Nat =>
          ((i : Nat), ({ data := (), timestamp := (i : Int), ttl := 1 } : CacheEntry Unit)))
        = fun i => i from rfl]
      simp
      exact List.nodup_range _)
    (by simp [fullState])
